import Mathlib

/-!
Verification of the `code-relay` CLI (src/coderelay.py) against its
natural-language specification.  Definitions come first: the Python
program is shallowly embedded, its pure computations becoming Lean
functions and each side-effecting command a pure function from its
inputs (catalog, file-system contents, user answers) to an explicit
description of the effects it performs and the resulting state.
All theorems follow the definitions.
-/

/-- The `task` sub-record of a catalog entry (`project["task"]["desc"]` is
used as the commit message body in `publish_changes`). -/
structure TaskRecord where
  desc : String
  deriving Repr, DecidableEq

/-- A project record from the remote catalog
(`data/available_projects.json`): name, description, language tags,
framework tags, git URL and the task record. -/
structure Project where
  name : String
  desc : String
  languages : List String
  frameworks : List String
  git : String
  task : TaskRecord
  deriving Repr, DecidableEq

/-- The preference record stored at
`<user-config-dir>/coderelay/coderelay.json`: exactly the three keys
`languages`, `frameworks`, `excluded_frameworks`. -/
structure Preferences where
  languages : List String
  frameworks : List String
  excluded_frameworks : List String
  deriving Repr, DecidableEq

/-! ## Matcher (the verdict loops of `list_repos`, lines 83-98) -/

/-- The language loop of `list_repos` (lines 86-90): the verdict starts as
`("good match", "green")` and the loop breaks to `("new language", "red")`
at the first project language absent from the preference languages.
Returns the pair `(match, match_color)`. -/
def langLoop : List String → List String → String × String
  | [], _ => ("good match", "green")
  | l :: rest, zl => if l ∈ zl then langLoop rest zl else ("new language", "red")

/-- The framework loop of `list_repos` (lines 91-98), threading the
`(match, match_color)` state: an excluded framework (when the verdict is
not already "new language") sets `("excluded framework", "red")` and
breaks; a framework absent from the preference frameworks (when the
verdict is not already "new language") sets `("new framework", "yellow")`
without breaking. -/
def fwLoop : List String → Preferences → String × String → String × String
  | [], _, m => m
  | f :: rest, z, m =>
    if f ∈ z.excluded_frameworks ∧ m.1 ≠ "new language" then ("excluded framework", "red")
    else if f ∉ z.frameworks ∧ m.1 ≠ "new language" then fwLoop rest z ("new framework", "yellow")
    else fwLoop rest z m

/-- The matcher: the per-project verdict computed inside the `for project`
loop of `list_repos` (lines 84-98). -/
def classify (p : Project) (z : Preferences) : String × String :=
  fwLoop p.frameworks z (langLoop p.languages z.languages)

/-- Concrete project used to refute the ordering claim for the matcher:
its framework list is `["django", "flask"]`. -/
def cxP : Project :=
  ⟨"proj", "demo", ["python"], ["django", "flask"], "https://example.com/p.git", ⟨"t"⟩⟩

/-- Concrete preferences used to refute the ordering claim for the
matcher: `django` is excluded, `flask` is neither preferred nor
excluded. -/
def cxZ : Preferences := ⟨["python"], [], ["django"]⟩

/-! ## Local preference store (`user_prefs`, lines 46-54) -/

/-- The default preference record written by `user_prefs` when the config
file is absent (line 51): three empty collections. -/
def defaultPrefs : Preferences := ⟨[], [], []⟩

/-- Result of the load-or-init fragment of `user_prefs`: the parsed
record, the file contents afterwards, and whether the parent directories
were created / the file was written on this invocation. -/
structure PrefsLoadResult where
  loaded : Preferences
  fileAfter : Option Preferences
  createdDirs : Bool
  wroteFile : Bool
  deriving Repr, DecidableEq

/-- Lines 46-54 of `user_prefs`: if the config file does not exist, create
the parent directories, write `defaultPrefs`, and read the file back;
otherwise just read it.  The file-system argument is the config file's
contents (`none` when absent). -/
def load_or_init : Option Preferences → PrefsLoadResult
  | none => ⟨defaultPrefs, some defaultPrefs, true, true⟩
  | some c => ⟨c, some c, false, false⟩

/-! ## Substring test and the `.gitignore` update of `start_project` -/

/-- `isPre p s` tests whether the character list `p` is an initial segment
of `s` (helper for the substring test below). -/
def isPre : List Char → List Char → Bool
  | [], _ => true
  | _ :: _, [] => false
  | a :: as, b :: bs => a == b && isPre as bs

/-- `containsSub pat s` models the Python expression `pat in s` on
strings: some position of `s` starts an occurrence of `pat`. -/
def containsSub (pat s : List Char) : Bool :=
  (List.range (s.length + 1)).any fun i => isPre pat (s.drop i)

/-- String-level wrapper for `containsSub`. -/
def strContainsSub (pat s : String) : Bool := containsSub pat.data s.data

/-- The ignore rule appended to `.gitignore` by `start_project`
(line 148). -/
def crRule : String := "\n# Code Relay\ncoderelay.json\n"

/-- Lines 145-148 of `start_project`: read `.gitignore`; if it does not
already contain `coderelay.json`, append the Code Relay ignore rule. -/
def updateGitignore (g : String) : String :=
  if strContainsSub "coderelay.json" g then g else g ++ crRule

/-! ## Project workspace manager (`start_project`, lines 109-163) -/

/-- How a `start_project` invocation ends (in source order: missing git
binary, unknown project name, user declined deleting the existing
directory, the uncaught `FileNotFoundError` of line 145 when the cloned
tree has no `.gitignore`, or normal completion). -/
inductive StartOutcome
  | noGit
  | notFound
  | abortedDecline
  | fileNotFoundError
  | success
  deriving Repr, DecidableEq

/-- The observable outcome of `start_project`: how it ended, whether the
`git clone` subprocess was invoked, whether the pre-existing target
directory was deleted (`shutil.rmtree`, line 127), the contents of
`<workspace>/.gitignore` afterwards, and the project record written to
`<workspace>/coderelay.json` (`none` when it was never written). -/
structure StartResult where
  outcome : StartOutcome
  cloneInvoked : Bool
  dirDeleted : Bool
  gitignoreAfter : Option String
  metadataWritten : Option Project
  deriving Repr, DecidableEq

/-- Line 115-117 of `start_project`: the first catalog entry whose `name`
equals the requested project name. -/
def findProject (catalog : List Project) (name : String) : Option Project :=
  catalog.find? fun p => p.name == name

/-- `start_project` (lines 109-163), embedded over its inputs: the
fetched catalog, the requested name, whether `git` is on the PATH,
whether the target directory already exists, the user's answer to the
delete prompt, the `.gitignore` contents currently in the target
directory (`none` when absent or when the directory does not exist) and
the `.gitignore` contents the clone step leaves behind (`none` when the
clone produces no such file — its exit status is never checked). -/
def start_project (catalog : List Project) (name : String)
    (gitAvailable dirExists confirmDelete : Bool)
    (preGitignore clonedGitignore : Option String) : StartResult :=
  if gitAvailable = false then
    ⟨.noGit, false, false, preGitignore, none⟩
  else
    match findProject catalog name with
    | none => ⟨.notFound, false, false, preGitignore, none⟩
    | some p =>
      if dirExists && !confirmDelete then
        ⟨.abortedDecline, false, false, preGitignore, none⟩
      else
        match clonedGitignore with
        | none => ⟨.fileNotFoundError, true, dirExists, none, none⟩
        | some g => ⟨.success, true, dirExists, some (updateGitignore g), some p⟩

/-! ## Publish workflow (`publish_changes`, lines 168-222) -/

/-- One observable step of `publish_changes`: a printed line, one of the
two prompts, or one of the git subprocess invocations. -/
inductive PubEvent
  | echo (s : String)
  | secho (s : String)
  | promptFork
  | promptConfirm (answer : Bool)
  | remoteAdd (url : String)
  | remoteSetUrl (url : String)
  | gitAddAll
  | diffStaged
  | commit (subject body : String)
  | push (remote : String)
  deriving Repr, DecidableEq

/-- How a `publish_changes` invocation ends (in source order: missing
workspace directory, missing git binary, missing workspace metadata, user
declined the confirmation, the uncaught `IndexError` of line 222 when the
fork URL has fewer than four slash-separated segments, or normal
completion). -/
inductive PubOutcome
  | dirMissing
  | noGit
  | configMissing
  | abortedDecline
  | indexError
  | completed
  deriving Repr, DecidableEq

/-- `splitSlashAux s acc` models Python's `s.split("/")` (single-character
separator, empty pieces kept), with `acc` the reversed current piece. -/
def splitSlashAux : List Char → List Char → List (List Char)
  | [], acc => [acc.reverse]
  | c :: cs, acc =>
    if c = '/' then acc.reverse :: splitSlashAux cs []
    else splitSlashAux cs (c :: acc)

/-- Python's `url.split("/")` on a string. -/
def pySplitSlash (s : String) : List String :=
  (splitSlashAux s.data []).map String.mk

/-- Line 222 of `publish_changes`: the pull-request comparison URL
`{upstream}/compare/main...{fork.split("/")[3]}:main`, or `none` when the
positional index 3 does not exist (Python raises `IndexError` there). -/
def compareUrl (upstream forkUrl : String) : Option String :=
  match (pySplitSlash forkUrl).get? 3 with
  | none => none
  | some seg => some (upstream ++ "/compare/main..." ++ seg ++ ":main")

/-- `publish_changes` (lines 168-222), embedded over its inputs: the
requested name, whether the workspace directory exists, whether `git` is
on the PATH, the parsed `coderelay.json` metadata (`none` when the file is
absent), the fork URL the user enters, and the user's answer to the
confirmation prompt.  Returns the event trace and the outcome. -/
def publish_changes (name : String) (dirExists gitAvailable : Bool)
    (projectConfig : Option Project) (forkUrl : String) (confirm : Bool) :
    List PubEvent × PubOutcome :=
  if dirExists = false then
    ([.echo ("Could not find project " ++ name ++ ".")], .dirMissing)
  else if gitAvailable = false then
    ([.echo "Please install git first."], .noGit)
  else
    match projectConfig with
    | none => ([.echo "Could not find project config."], .configMissing)
    | some cfg =>
      let intro : List PubEvent :=
        [.secho "What is a fork?",
         .echo "Only the authors of the project can publish changes, so you need to fork the project first.",
         .secho "How do you fork?",
         .echo ("To fork the project, first open it online at " ++ cfg.git ++ "."),
         .echo "Then, click the \x27Fork\x27 button.",
         .echo "coderelay will publish your changes to your fork.",
         .echo "",
         .promptFork,
         .remoteAdd forkUrl,
         .remoteSetUrl forkUrl,
         .gitAddAll,
         .secho "Files changed:",
         .diffStaged,
         .promptConfirm confirm]
      if confirm = false then
        (intro ++ [.echo "Aborting."], .abortedDecline)
      else
        let upload : List PubEvent :=
          [.echo "⏳ Uploading your code...",
           .commit "Code Relay" cfg.task.desc,
           .push "fork",
           .echo "✅ Your code has been uploaded.",
           .echo "Now, you need to tell code-relay that you\x27re done.",
           .echo "Go to the link below, and click \x27Create pull request\x27 twice."]
        match compareUrl cfg.git forkUrl with
        | none => (intro ++ upload, .indexError)
        | some u => (intro ++ upload ++ [.echo u], .completed)

/-! ## `list_repos` (lines 70-104) -/

/-- One observable step of `list_repos`: the catalog fetch, a colored
verdict line, or a plain printed line. -/
inductive ListEvent
  | fetch
  | secho (s : String) (color : String)
  | echo (s : String)
  deriving Repr, DecidableEq

/-- The colored verdict line printed for one catalog entry (lines
99-102): `"{name}, {desc} {match}"` in `match_color`. -/
def verdictLine (p : Project) (z : Preferences) : ListEvent :=
  .secho (p.name ++ ", " ++ p.desc ++ " " ++ (classify p z).1) (classify p z).2

/-- `list_repos` (lines 70-104), embedded over the fetched catalog and
the contents of the preference file (`none` when absent): the catalog
fetch always happens first; if the preference file is missing the command
prints an instruction and returns; otherwise it prints one verdict line
per project and a closing hint.  The second component is the preference
file afterwards (`list_repos` never writes it). -/
def list_repos (catalog : List Project) (configFile : Option Preferences) :
    List ListEvent × Option Preferences :=
  (ListEvent.fetch ::
    (match configFile with
     | none =>
        [ListEvent.echo "Please run `coderelay user-prefs` to configure your preferences."]
     | some config =>
        catalog.map (fun p => verdictLine p config) ++
          [ListEvent.echo "Get started on one by running `coderelay start-project <project-name>`."]),
   configFile)

/-! ## Theorems -/

/-- If every project language is among the preferred languages, the
language loop leaves the initial verdict `("good match", "green")`. -/
theorem langLoop_eq_good (pl zl : List String) (h : ∀ l ∈ pl, l ∈ zl) :
    langLoop pl zl = ("good match", "green") := by
  induction pl with
  | nil => rfl
  | cons a rest ih =>
    have ha : a ∈ zl := h a (List.mem_cons_self a rest)
    have hr : ∀ l ∈ rest, l ∈ zl := fun l hl => h l (List.mem_cons_of_mem a hl)
    simp [langLoop, ha, ih hr]

/-- If some project language is missing from the preferred languages, the
language loop ends with `("new language", "red")`. -/
theorem langLoop_eq_new (pl zl : List String) (l : String) (hl : l ∈ pl)
    (hnl : l ∉ zl) : langLoop pl zl = ("new language", "red") := by
  induction pl with
  | nil => cases hl
  | cons a rest ih =>
    by_cases ha : a ∈ zl
    · have : l ∈ rest := by
        rcases List.mem_cons.mp hl with h | h
        · exact absurd (h ▸ ha) hnl
        · exact h
      simp [langLoop, ha, ih this]
    · simp [langLoop, ha]

/-- Both branch guards of the framework loop require the verdict not to be
"new language", so a "new language" verdict passes through unchanged. -/
theorem fwLoop_preserves_new_language (fws : List String) (z : Preferences)
    (c : String) : fwLoop fws z ("new language", c) = ("new language", c) := by
  induction fws with
  | nil => rfl
  | cons f rest ih => simp [fwLoop, ih]

/-- If no project framework is excluded and every project framework is
preferred, the framework loop leaves a "good match" verdict unchanged. -/
theorem fwLoop_good (fws : List String) (z : Preferences)
    (h : ∀ f ∈ fws, f ∉ z.excluded_frameworks ∧ f ∈ z.frameworks) :
    fwLoop fws z ("good match", "green") = ("good match", "green") := by
  induction fws with
  | nil => rfl
  | cons f rest ih =>
    have hf := h f (List.mem_cons_self f rest)
    have hr : ∀ g ∈ rest, g ∉ z.excluded_frameworks ∧ g ∈ z.frameworks :=
      fun g hg => h g (List.mem_cons_of_mem f hg)
    simp [fwLoop, hf.1, hf.2, ih hr]

/-- C1, counterexample: with no new language, frameworks exactly
`["django", "flask"]`, `django` excluded, and `flask` neither preferred
nor excluded, the matcher's verdict is "excluded framework" — not
"new framework" as claimed: the framework loop breaks as soon as it sees
the excluded framework (line 95 of `list_repos`). -/
theorem classify_excluded_first_counterexample :
    cxP.languages = ["python"] ∧ "python" ∈ cxZ.languages ∧
    cxP.frameworks = ["django", "flask"] ∧
    "django" ∈ cxZ.excluded_frameworks ∧
    "flask" ∉ cxZ.frameworks ∧ "flask" ∉ cxZ.excluded_frameworks ∧
    (classify cxP cxZ).1 ≠ "new framework" := by
  decide

/-- C1, amended: for every project whose languages are all preferred and
whose frameworks are exactly `[f1, f2]` with `f1` excluded and `f2`
neither preferred nor excluded, the verdict is "excluded framework" (the
loop breaks immediately on the excluded hit at line 95). -/
theorem classify_excluded_first_amended (P : Project) (Z : Preferences)
    (f1 f2 : String)
    (hlang : ∀ l ∈ P.languages, l ∈ Z.languages)
    (hfw : P.frameworks = [f1, f2])
    (h1 : f1 ∈ Z.excluded_frameworks)
    (h2 : f2 ∉ Z.frameworks) (h3 : f2 ∉ Z.excluded_frameworks) :
    (classify P Z).1 = "excluded framework" := by
  unfold classify
  rw [hfw, langLoop_eq_good P.languages Z.languages hlang]
  have hne : ("good match", "green").1 ≠ "new language" := by decide
  simp [fwLoop, h1, hne]

/-- C1, witness for the amended theorem at a concrete input. -/
theorem classify_excluded_first_amended_witness :
    (∀ l ∈ cxP.languages, l ∈ cxZ.languages) ∧
    cxP.frameworks = ["django", "flask"] ∧
    "django" ∈ cxZ.excluded_frameworks ∧
    "flask" ∉ cxZ.frameworks ∧ "flask" ∉ cxZ.excluded_frameworks ∧
    (classify cxP cxZ).1 = "excluded framework" :=
  ⟨by decide, rfl, by decide, by decide, by decide,
    classify_excluded_first_amended cxP cxZ "django" "flask" (by decide) rfl
      (by decide) (by decide) (by decide)⟩

/-- C2: if at least one project language is absent from the preference
languages, the verdict is "new language", whatever the framework lists
contain. -/
theorem classify_new_language (P : Project) (Z : Preferences) (l : String)
    (hl : l ∈ P.languages) (hnl : l ∉ Z.languages) :
    (classify P Z).1 = "new language" := by
  unfold classify
  rw [langLoop_eq_new P.languages Z.languages l hl hnl,
    fwLoop_preserves_new_language]

/-- C2, witness at a concrete input: a project written in `cobol` is a
"new language" for the preferences `cxZ` even though its framework list
would otherwise be an excluded framework. -/
theorem classify_new_language_witness :
    "cobol" ∈ ["cobol"] ∧ "cobol" ∉ cxZ.languages ∧
    (classify ⟨"q", "d", ["cobol"], ["django"], "g", ⟨"t"⟩⟩ cxZ).1 = "new language" :=
  ⟨by decide, by decide,
    classify_new_language ⟨"q", "d", ["cobol"], ["django"], "g", ⟨"t"⟩⟩ cxZ "cobol"
      (by decide) (by decide)⟩

/-- C3: if every project language is preferred, no project framework is
excluded, and every project framework is preferred, the verdict is
"good match". -/
theorem classify_good_match (P : Project) (Z : Preferences)
    (hlang : ∀ l ∈ P.languages, l ∈ Z.languages)
    (hfw : ∀ f ∈ P.frameworks, f ∉ Z.excluded_frameworks ∧ f ∈ Z.frameworks) :
    (classify P Z).1 = "good match" := by
  unfold classify
  rw [langLoop_eq_good P.languages Z.languages hlang, fwLoop_good P.frameworks Z hfw]

/-- C3, witness at a concrete input. -/
theorem classify_good_match_witness :
    (∀ l ∈ ["python"], l ∈ (⟨["python"], ["flask"], []⟩ : Preferences).languages) ∧
    (∀ f ∈ ["flask"],
      f ∉ (⟨["python"], ["flask"], []⟩ : Preferences).excluded_frameworks ∧
      f ∈ (⟨["python"], ["flask"], []⟩ : Preferences).frameworks) ∧
    (classify ⟨"r", "d", ["python"], ["flask"], "g", ⟨"t"⟩⟩
      ⟨["python"], ["flask"], []⟩).1 = "good match" :=
  ⟨by decide, by decide,
    classify_good_match ⟨"r", "d", ["python"], ["flask"], "g", ⟨"t"⟩⟩
      ⟨["python"], ["flask"], []⟩ (by decide) (by decide)⟩

/-- C4: initialising an absent preference file creates the parent
directories and writes the record with the three keys `languages`,
`frameworks`, `excluded_frameworks` all empty, and reading back yields
those empty sets; once the file exists, load-or-init reads it without
rewriting it, so repeated invocations leave the stored contents
unchanged. -/
theorem load_or_init_spec :
    load_or_init none = ⟨defaultPrefs, some defaultPrefs, true, true⟩ ∧
    defaultPrefs.languages = [] ∧ defaultPrefs.frameworks = [] ∧
    defaultPrefs.excluded_frameworks = [] ∧
    (∀ c : Preferences, load_or_init (some c) = ⟨c, some c, false, false⟩) ∧
    (∀ fs : Option Preferences,
      (load_or_init (load_or_init fs).fileAfter).wroteFile = false ∧
      (load_or_init (load_or_init fs).fileAfter).fileAfter =
        (load_or_init fs).fileAfter) := by
  refine ⟨rfl, rfl, rfl, rfl, fun c => rfl, fun fs => ?_⟩
  cases fs <;> exact ⟨rfl, rfl⟩

theorem isPre_iff (p : List Char) : ∀ s, isPre p s = true ↔ ∃ t, s = p ++ t := by
  induction p with
  | nil => intro s; simp [isPre]
  | cons a as ih =>
    intro s
    cases s with
    | nil =>
      simp only [isPre, List.cons_append]
      constructor
      · intro h; cases h
      · rintro ⟨t, ht⟩; cases ht
    | cons b bs =>
      simp only [isPre, Bool.and_eq_true, beq_iff_eq, ih bs, List.cons_append]
      constructor
      · rintro ⟨rfl, t, rfl⟩; exact ⟨t, rfl⟩
      · rintro ⟨t, ht⟩
        injection ht with h1 h2
        exact ⟨h1.symm, t, h2⟩

theorem containsSub_iff (pat s : List Char) :
    containsSub pat s = true ↔ ∃ a b, s = a ++ pat ++ b := by
  unfold containsSub
  rw [List.any_eq_true]
  constructor
  · rintro ⟨i, hi, hp⟩
    rw [List.mem_range] at hi
    rw [isPre_iff] at hp
    obtain ⟨t, ht⟩ := hp
    refine ⟨s.take i, t, ?_⟩
    conv_lhs => rw [← List.take_append_drop i s]
    rw [ht, List.append_assoc]
  · rintro ⟨a, b, rfl⟩
    refine ⟨a.length, ?_, ?_⟩
    · rw [List.mem_range]
      have h1 : a.length ≤ (a ++ pat ++ b).length := by
        simp [List.length_append]
      omega
    · rw [isPre_iff, List.append_assoc, List.drop_left]
      exact ⟨b, rfl⟩

theorem containsSub_append_right (pat s t : List Char)
    (h : containsSub pat t = true) : containsSub pat (s ++ t) = true := by
  rw [containsSub_iff] at h ⊢
  obtain ⟨a, b, rfl⟩ := h
  exact ⟨s ++ a, b, by simp [List.append_assoc]⟩

theorem strContainsSub_append_right (pat s t : String)
    (h : strContainsSub pat t = true) : strContainsSub pat (s ++ t) = true := by
  unfold strContainsSub at h ⊢
  cases s with
  | mk sd =>
    cases t with
    | mk td => exact containsSub_append_right pat.data sd td h

/-- After appending the Code Relay rule, the file contains
`coderelay.json`. -/
theorem updateGitignore_contains_after (g : String) :
    strContainsSub "coderelay.json" (updateGitignore g) = true := by
  unfold updateGitignore
  by_cases h : strContainsSub "coderelay.json" g = true
  · simp [h]
  · rw [Bool.not_eq_true] at h
    simp only [h, Bool.false_eq_true, if_false]
    exact strContainsSub_append_right _ g crRule (by decide)

/-- C6: `start_project` appends the Code Relay rule to `.gitignore` only
when the file does not already contain `coderelay.json`; as a consequence
a second application of the update is a no-op, so two runs in sequence
leave exactly the one appended rule and no duplicate. -/
theorem updateGitignore_once (g : String)
    (h : strContainsSub "coderelay.json" g = false) :
    updateGitignore g = g ++ crRule ∧
    strContainsSub "coderelay.json" (updateGitignore g) = true ∧
    updateGitignore (updateGitignore g) = updateGitignore g ∧
    (∀ g2 : String, strContainsSub "coderelay.json" g2 = true →
      updateGitignore g2 = g2) := by
  have hupd : updateGitignore g = g ++ crRule := by
    unfold updateGitignore
    simp [h]
  refine ⟨hupd, updateGitignore_contains_after g, ?_, fun g2 h2 => by simp [updateGitignore, h2]⟩
  have hc := updateGitignore_contains_after g
  have hstep : updateGitignore (updateGitignore g) =
      if strContainsSub "coderelay.json" (updateGitignore g) then updateGitignore g
      else updateGitignore g ++ crRule := rfl
  rw [hstep, hc]
  simp

/-- C6, witness: a `.gitignore` that ships without the rule gets it
appended exactly once across two runs. -/
theorem updateGitignore_once_witness :
    strContainsSub "coderelay.json" "node_modules\n" = false ∧
    updateGitignore "node_modules\n" = "node_modules\n" ++ crRule ∧
    updateGitignore (updateGitignore "node_modules\n") =
      updateGitignore "node_modules\n" :=
  ⟨by decide, (updateGitignore_once "node_modules\n" (by decide)).1,
    (updateGitignore_once "node_modules\n" (by decide)).2.2.1⟩

/-- C5: when the target directory exists and the user declines the delete
prompt, `start_project` aborts: the clone is never invoked, the directory
is not deleted, its `.gitignore` is left exactly as it was, and no
metadata file is written. -/
theorem start_project_decline_frame (catalog : List Project) (name : String)
    (p : Project) (hfind : findProject catalog name = some p)
    (pre cloned : Option String) :
    start_project catalog name true true false pre cloned =
      ⟨.abortedDecline, false, false, pre, none⟩ := by
  unfold start_project
  rw [hfind]
  simp

/-- C5, witness at a concrete catalog. -/
theorem start_project_decline_frame_witness :
    findProject [cxP] "proj" = some cxP ∧
    start_project [cxP] "proj" true true false (some "x\n") (some "y\n") =
      ⟨.abortedDecline, false, false, some "x\n", none⟩ :=
  ⟨by decide,
    start_project_decline_frame [cxP] "proj" cxP (by decide) (some "x\n") (some "y\n")⟩

/-- C9: when the workspace has no `.gitignore` after the clone step (for
example because the clone failed, which is never checked), opening
`.gitignore` for reading raises an uncaught file-not-found error and the
`coderelay.json` metadata file is never written. -/
theorem start_project_no_gitignore_error (catalog : List Project)
    (name : String) (p : Project) (hfind : findProject catalog name = some p)
    (dirExists confirmDelete : Bool)
    (hreach : (dirExists && !confirmDelete) = false) (pre : Option String) :
    start_project catalog name true dirExists confirmDelete pre none =
      ⟨.fileNotFoundError, true, dirExists, none, none⟩ := by
  unfold start_project
  rw [hfind]
  simp [hreach]

/-- C9, witness at a concrete catalog: fresh directory, clone leaves no
`.gitignore`. -/
theorem start_project_no_gitignore_error_witness :
    findProject [cxP] "proj" = some cxP ∧
    (false && !false) = false ∧
    start_project [cxP] "proj" true false false none none =
      ⟨.fileNotFoundError, true, false, none, none⟩ :=
  ⟨by decide, by decide,
    start_project_no_gitignore_error [cxP] "proj" cxP (by decide) false false
      (by decide) none⟩

theorem strData_append (a b : String) : (a ++ b).data = a.data ++ b.data := by
  cases a; cases b; rfl

/-- Consuming slash-free characters only accumulates them into the
current piece. -/
theorem splitSlashAux_no_slash (xs : List Char) (h : '/' ∉ xs) :
    ∀ acc rest, splitSlashAux (xs ++ rest) acc = splitSlashAux rest (xs.reverse ++ acc) := by
  induction xs with
  | nil => intro acc rest; simp
  | cons x xs ih =>
    intro acc rest
    have hx : ¬ x = '/' := fun hh => h (hh ▸ List.mem_cons_self x xs)
    have hxs : '/' ∉ xs := fun hh => h (List.mem_cons_of_mem x hh)
    have e : xs.reverse ++ (x :: acc) = (x :: xs).reverse ++ acc := by simp
    calc splitSlashAux ((x :: xs) ++ rest) acc
        = splitSlashAux (xs ++ rest) (x :: acc) := by simp [splitSlashAux, hx]
      _ = splitSlashAux rest (xs.reverse ++ (x :: acc)) := ih hxs _ _
      _ = splitSlashAux rest ((x :: xs).reverse ++ acc) := by rw [e]

/-- A slash-free piece followed by a separator is emitted whole. -/
theorem splitSlashAux_seg (xs rest : List Char) (h : '/' ∉ xs) (acc : List Char) :
    splitSlashAux (xs ++ '/' :: rest) acc = (acc.reverse ++ xs) :: splitSlashAux rest [] := by
  rw [splitSlashAux_no_slash xs h acc ('/' :: rest)]
  simp [splitSlashAux]

/-- For a fork URL of the canonical shape
`https://github.com/<owner>/<repo>` (owner slash-free), the positional
index 3 of the split is the owner. -/
theorem pySplitSlash_github (owner repo : String) (ho : '/' ∉ owner.data) :
    (pySplitSlash ("https://github.com/" ++ owner ++ "/" ++ repo)).get? 3 = some owner := by
  have hmk : String.mk owner.data = owner := by cases owner; rfl
  have hd : ("https://github.com/" ++ owner ++ "/" ++ repo).data =
      "https:".data ++ '/' :: ('/' :: ("github.com".data ++
        '/' :: (owner.data ++ '/' :: repo.data))) := by
    have e0 : "https://github.com/".data =
        "https:".data ++ '/' :: ('/' :: ("github.com".data ++ ['/'])) := by decide
    have e1 : ("https://github.com/" ++ owner ++ "/" ++ repo).data =
        "https://github.com/".data ++ (owner.data ++ ('/' :: repo.data)) := by
      have e2 : "/".data = ['/'] := rfl
      simp [strData_append, e2, List.append_assoc]
    rw [e1, e0]
    simp [List.append_assoc]
  unfold pySplitSlash
  rw [hd, splitSlashAux_seg _ _ (by decide) []]
  have step2 : splitSlashAux ('/' :: ("github.com".data ++
      '/' :: (owner.data ++ '/' :: repo.data))) [] =
      [] :: splitSlashAux ("github.com".data ++ '/' :: (owner.data ++ '/' :: repo.data)) [] := by
    simp [splitSlashAux]
  rw [step2, splitSlashAux_seg _ _ (by decide) [], splitSlashAux_seg _ _ ho []]
  simp [hmk]

/-- C7: when the user declines the confirmation prompt shown after the
staged file list, `publish_changes` aborts with no commit and no push,
while the earlier remote-add, remote-set-url and staging steps have
already run and are not rolled back. -/
theorem publish_changes_decline (name : String) (cfg : Project)
    (forkUrl : String) :
    (publish_changes name true true (some cfg) forkUrl false).2 =
      PubOutcome.abortedDecline ∧
    (∀ s b : String,
      PubEvent.commit s b ∉ (publish_changes name true true (some cfg) forkUrl false).1) ∧
    (∀ r : String,
      PubEvent.push r ∉ (publish_changes name true true (some cfg) forkUrl false).1) ∧
    PubEvent.remoteAdd forkUrl ∈ (publish_changes name true true (some cfg) forkUrl false).1 ∧
    PubEvent.remoteSetUrl forkUrl ∈ (publish_changes name true true (some cfg) forkUrl false).1 ∧
    PubEvent.gitAddAll ∈ (publish_changes name true true (some cfg) forkUrl false).1 := by
  refine ⟨rfl, ?_, ?_, ?_, ?_, ?_⟩ <;> simp [publish_changes]

/-- C8: when the flow completes, `publish_changes` prints exactly the URL
`<upstream>/compare/main...<seg>:main` where `seg` is the component at
positional index 3 of the fork URL split on `/` — whatever string
occupies that index for the URL shape the user typed; for the canonical
shape `https://github.com/<owner>/<repo>` that component is the owner. -/
theorem publish_changes_compare_url (name : String) (cfg : Project)
    (forkUrl seg : String) (h : (pySplitSlash forkUrl).get? 3 = some seg) :
    (PubEvent.echo (cfg.git ++ "/compare/main..." ++ seg ++ ":main") ∈
      (publish_changes name true true (some cfg) forkUrl true).1 ∧
    (publish_changes name true true (some cfg) forkUrl true).2 =
      PubOutcome.completed) ∧
    (∀ owner repo : String, '/' ∉ owner.data →
      (pySplitSlash ("https://github.com/" ++ owner ++ "/" ++ repo)).get? 3 =
        some owner) := by
  rw [List.get?_eq_getElem?] at h
  refine ⟨⟨?_, ?_⟩, fun owner repo ho => pySplitSlash_github owner repo ho⟩ <;>
    simp [publish_changes, compareUrl, h]

/-- C8, witness: for the canonical fork URL shape
`https://github.com/<owner>/<repo>`, segment 3 is the owner
(`username`). -/
theorem publish_changes_compare_url_witness :
    (pySplitSlash "https://github.com/username/project-name").get? 3 =
      some "username" ∧
    PubEvent.echo ("https://up.example/u.git" ++ "/compare/main..." ++ "username" ++ ":main") ∈
      (publish_changes "p" true true (some ⟨"p", "d", [], [], "https://up.example/u.git", ⟨"t"⟩⟩)
        "https://github.com/username/project-name" true).1 :=
  ⟨by decide,
    (publish_changes_compare_url "p" ⟨"p", "d", [], [], "https://up.example/u.git", ⟨"t"⟩⟩
      "https://github.com/username/project-name" "username" (by decide)).1.1⟩

/-- C10: with the preference file absent, `list_repos` performs the
catalog fetch first, then prints only the instruction to run
`coderelay user-prefs` and returns: no verdict line is printed and the
preference file is not created. -/
theorem list_repos_no_prefs (catalog : List Project) :
    list_repos catalog none =
      ([ListEvent.fetch,
        ListEvent.echo "Please run `coderelay user-prefs` to configure your preferences."],
       none) ∧
    (list_repos catalog none).1.head? = some ListEvent.fetch ∧
    (∀ s c : String, ListEvent.secho s c ∉ (list_repos catalog none).1) ∧
    (list_repos catalog none).2 = none := by
  refine ⟨rfl, rfl, ?_, rfl⟩
  intro s c
  simp [list_repos]
